import Mathlib

/-!
Verification of the 2D Attention Augmentation layer (`attn_augconv.py`).

Two complementary shallow embeddings of the same source code:

* a *shape-level* model: tensors are represented by their shapes
  (`List ℕ`), and every reshape / split / matmul / broadcast carries the
  exact validity check that TensorFlow performs, returning `none` on a
  shape error.  This model is fully computable.

* a *value-level* model: a rank-`n` tensor is represented by a total
  function `ℕ → ⋯ → ℕ → ℝ` giving the entry at each (row-major) index;
  reshapes, permutations, concatenations and slices become explicit
  index arithmetic mirroring the row-major layout TensorFlow uses.

Both models are translated operation by operation from the source, with
one definition per source construct.
-/

namespace AttnAug

/-! ## Shape-level model -/

/-- A tensor shape, as the list of its dimensions. -/
abbrev Shape := List ℕ

/-- `K.reshape(x, tgt)` with a fully explicit target shape: succeeds iff the
element counts agree. -/
def reshapeTo (s tgt : Shape) : Option Shape :=
  if s.prod = tgt.prod then some tgt else none

/-- `K.reshape(x, -1 :: tgt)`: the leading dimension is inferred; succeeds iff
the element count of `x` is divisible by the product of the given trailing
dimensions. -/
def reshapeInfer (s tgt : Shape) : Option Shape :=
  if tgt.prod ∣ s.prod then some (s.prod / tgt.prod :: tgt) else none

/-- Shape action of `K.permute_dimensions(x, mask)` / `tf.transpose`:
output dimension `i` is input dimension `mask[i]`. -/
def permuteShape (mask : List ℕ) (s : Shape) : Shape :=
  mask.map (fun i => s.getD i 0)

/-- Dimension-wise broadcasting rule of TensorFlow (used by `+`). -/
def broadcastDim (a b : ℕ) : Option ℕ :=
  if a = b then some a else if a = 1 then some b else if b = 1 then some a else none

/-- Shape of an elementwise binary op on two same-rank tensors,
broadcasting dimension by dimension. -/
def broadcastShape : Shape → Shape → Option Shape
  | [], [] => some []
  | a :: as', b :: bs' =>
      (broadcastDim a b).bind fun d => (broadcastShape as' bs').map fun ds => d :: ds
  | _, _ => none

/-- Shape of `tf.matmul(a, b, transpose_b := tb)` for rank-4 operands:
batch dimensions broadcast, inner dimensions must agree. -/
def matmulShape (tb : Bool) (sa sb : Shape) : Option Shape :=
  match sa, sb with
  | [a0, a1, m, ka], [b0, b1, r0, r1] =>
      let kb := if tb then r1 else r0
      let n := if tb then r0 else r1
      if ka = kb then (broadcastShape [a0, a1] [b0, b1]).map (fun ds => ds ++ [m, n])
      else none
  | _, _ => none

/-- Shape behaviour of `split_heads_2d` (source lines 107–128): reshape
`(B,H,W,C)` to `(B,H,W,nh,C//nh)` — which is where a non-divisible channel
count blows up — then permute by `(0,3,1,2,4)`. -/
def split_heads_2d_shape (nh : ℕ) (s : Shape) : Option Shape :=
  match s with
  | [B, H, W, C] =>
      (reshapeTo [B, H, W, C] [B, H, W, nh, C / nh]).map
        (fun _ => permuteShape [0, 3, 1, 2, 4] [B, H, W, nh, C / nh])
  | _ => none

/-- Shape behaviour of `rel_to_abs` (source lines 159–170).  The source reads
`B, Nh, L` from the first three dimensions; the zero-column concat, the two
reshapes and the final slice are modelled with their exact validity checks. -/
def rel_to_abs_shape (s : Shape) : Option Shape :=
  match s with
  | [B, Nh, L, M] =>
      (reshapeTo [B, Nh, L, M + 1] [B, Nh, L * 2 * L]).bind fun _ =>
      (reshapeTo [B, Nh, L * 2 * L + (L - 1)] [B, Nh, L + 1, 2 * L - 1]).map fun _ =>
      [B, Nh, min L (L + 1), (2 * L - 1) - (L - 1)]
  | _ => none

/-- Shape behaviour of `combine_heads_2d` (source lines 172–182): permute by
`(0,2,3,1,4)` and merge the two trailing dimensions (the target shape is built
from the actual shape, so the reshape always succeeds). -/
def combine_heads_2d_shape (s : Shape) : Option Shape :=
  match s with
  | [B, nh, H, W, d] => some [B, H, W, nh * d]
  | _ => none

/-- The tail of `relative_logits_1d` after the first (inferred) reshape:
`rel_to_abs`, reshape back to `[-1, nh, X, Y, Y]`, `expand_dims`+`tile` to
`X` copies on axis 3, permute by the transpose mask, and the final reshape
to `[-1, nh, X*Y, X*Y]` (source lines 151–156). -/
def rel1d_tail_shape (nh X Y : ℕ) (mask : List ℕ) (rl2 : Shape) : Option Shape :=
  (rel_to_abs_shape rl2).bind fun rl3 =>
  (reshapeInfer rl3 [nh, X, Y, Y]).bind fun rl4 =>
  match rl4 with
  | [b4, n4, x4, y4, j4] =>
      reshapeInfer (permuteShape mask [b4, n4, x4, X, y4, j4]) [nh, X * Y, X * Y]
  | _ => none

/-- Shape behaviour of `relative_logits_1d` (source lines 148–157).
`R` is the number of rows of the embedding table (`2*extent_at_build - 1`),
`cols` its second dimension (`depth_k // num_heads` at build time); the
einsum `bhxyd,md->bhxym` requires the contracted dimensions to agree. -/
def relative_logits_1d_shape (nh R cols X Y : ℕ) (mask : List ℕ) (qs : Shape) :
    Option Shape :=
  match qs with
  | [b, n, x, y, d] =>
      if d = cols then
        (reshapeInfer [b, n, x, y, R] [nh * X, Y, 2 * Y - 1]).bind
          (rel1d_tail_shape nh X Y mask)
      else none
  | _ => none

/-- Shape behaviour of `relative_logits` (source lines 130–146): the width
logits are computed on `q` directly, the height logits on `q` with its two
spatial axes permuted; returns `(height_logits, width_logits)`. -/
def relative_logits_shape (nh rowsH rowsW cols : ℕ) (qs : Shape) :
    Option (Shape × Shape) :=
  match qs with
  | [b, n, X, Y, d] =>
      (relative_logits_1d_shape nh rowsW cols X Y [0, 1, 2, 4, 3, 5]
          [b, n, X, Y, d]).bind fun w =>
      (relative_logits_1d_shape nh rowsH cols Y X [0, 1, 4, 2, 5, 3]
          (permuteShape [0, 1, 3, 2, 4] [b, n, X, Y, d])).map fun hh =>
      (hh, w)
  | _ => none

/-- Construction-time configuration of the layer (integer channel counts,
as used by the forward pass). -/
structure AAConf where
  depth_k : ℕ
  depth_v : ℕ
  num_heads : ℕ
  relative : Bool
  deriving DecidableEq

/-- Shape behaviour of `AttentionAugmentation.call` (source lines 58–100) in
the channels-last layout.  `Hb`/`Wb` are the spatial extents observed by
`build`, which fixed the relative-embedding tables to `2*Hb-1` and `2*Wb-1`
rows (source lines 44–52); Keras builds a layer once, so a later call sees
those same tables.  Every tensor op carries its TensorFlow validity check. -/
def call_shape (c : AAConf) (Hb Wb : ℕ) (s : Shape) : Option Shape :=
  match s with
  | [B, H, W, C] =>
      -- tf.split(inputs, [depth_k, depth_k, depth_v], axis=-1)
      if C = c.depth_k + c.depth_k + c.depth_v then
        (split_heads_2d_shape c.num_heads [B, H, W, c.depth_k]).bind fun qh =>
        (split_heads_2d_shape c.num_heads [B, H, W, c.depth_k]).bind fun _kh =>
        (split_heads_2d_shape c.num_heads [B, H, W, c.depth_v]).bind fun vh =>
        -- query scaling leaves the shape unchanged
        (reshapeTo qh [B, c.num_heads, H * W, c.depth_k / c.num_heads]).bind fun fq =>
        (reshapeTo qh [B, c.num_heads, H * W, c.depth_k / c.num_heads]).bind fun fk =>
        (reshapeTo vh [B, c.num_heads, H * W, c.depth_v / c.num_heads]).bind fun fv =>
        (matmulShape true fq fk).bind fun logits =>
        (if c.relative then
          (relative_logits_shape c.num_heads (2 * Hb - 1) (2 * Wb - 1)
              (c.depth_k / c.num_heads) qh).bind fun hw =>
          (broadcastShape logits hw.1).bind fun l1 =>
          broadcastShape l1 hw.2
        else some logits).bind fun logits2 =>
        -- K.softmax preserves the shape
        (matmulShape false logits2 fv).bind fun ao =>
        (reshapeTo ao [B, c.num_heads, H, W, c.depth_v / c.num_heads]).bind fun ao5 =>
        combine_heads_2d_shape ao5
      else none
  | _ => none

/-- `compute_output_shape` (source lines 102–105), channels-last. -/
def compute_output_shape (c : AAConf) (s : Shape) : Shape :=
  match s with
  | [B, H, W, _C] => [B, H, W, c.depth_v]
  | other => other

/-! ## Value-level model

A rank-`n` tensor of reals is a total function from `n` indices to `ℝ`;
an op's semantics is stated on the in-range indices determined by the
shape-level model above.  Row-major layout throughout, as in TensorFlow. -/

/-- Rank-3 tensor of reals, as an entry function. -/
abbrev T3 := ℕ → ℕ → ℕ → ℝ

/-- Rank-4 tensor of reals, as an entry function. -/
abbrev T4 := ℕ → ℕ → ℕ → ℕ → ℝ

/-- Rank-5 tensor of reals, as an entry function. -/
abbrev T5 := ℕ → ℕ → ℕ → ℕ → ℕ → ℝ

/-- Rank-6 tensor of reals, as an entry function. -/
abbrev T6 := ℕ → ℕ → ℕ → ℕ → ℕ → ℕ → ℝ

/-! ### rel_to_abs (source lines 159–170) -/

/-- `K.concatenate([x, col_pad], axis=3)` where `x` has last dimension `M`
and `col_pad` is one zero column (source lines 163–164). -/
def concat_zero_col (M : ℕ) (x : T4) : T4 :=
  fun b n i j => if j < M then x b n i j else 0

/-- `K.reshape(x, [B, Nh, L * 2 * L])` merging the two trailing axes of a
tensor whose last dimension is `cols` (source line 165), row-major. -/
def flatten_last2 (cols : ℕ) (x : T4) : T3 :=
  fun b n k => x b n (k / cols) (k % cols)

/-- `K.concatenate([flat_x, flat_pad], axis=2)` appending zeros after the
first `len` entries (source lines 166–167). -/
def concat_zero_flat (len : ℕ) (x : T3) : T3 :=
  fun b n k => if k < len then x b n k else 0

/-- `K.reshape(flat_x_padded, [B, Nh, L + 1, 2 * L - 1])` splitting the
trailing axis into rows of `cols` entries (source line 168), row-major. -/
def unflatten_last (cols : ℕ) (x : T3) : T4 :=
  fun b n r c => x b n (r * cols + c)

/-- `rel_to_abs` (source lines 159–170): append a zero column, flatten the
two trailing axes, append `L - 1` zeros, reshape to `(B, Nh, L+1, 2L-1)`,
then slice rows `[0, L)` and columns `[L-1, 2L-1)`. -/
def rel_to_abs (L : ℕ) (x : T4) : T4 :=
  let y := concat_zero_col (2 * L - 1) x
  let f := flatten_last2 (2 * L) y
  let fp := concat_zero_flat (L * 2 * L) f
  let g := unflatten_last (2 * L - 1) fp
  fun b n i j => g b n i (j + (L - 1))

/-! ### split_heads_2d / combine_heads_2d (source lines 107–128, 172–182) -/

/-- The reshape `(B,H,W,C) → (B,H,W,nh,q)` splitting the channel axis into
blocks of `q = C // nh` channels (source lines 123–124), row-major. -/
def reshape_split_last (q : ℕ) (ip : T4) : T5 :=
  fun b i j h d => ip b i j (h * q + d)

/-- `K.permute_dimensions(x, (0, 3, 1, 2, 4))` (source lines 125–126). -/
def permute_03124 (t : T5) : T5 :=
  fun b h i j d => t b i j h d

/-- `split_heads_2d` (source lines 107–128): split the channel axis into
`nh` blocks of `q` channels, then move the head axis to position 1. -/
def split_heads_2d (q : ℕ) (ip : T4) : T5 :=
  permute_03124 (reshape_split_last q ip)

/-- `K.permute_dimensions(inputs, [0, 2, 3, 1, 4])` (source line 174). -/
def permute_02314 (t : T5) : T5 :=
  fun b i j h d => t b h i j d

/-- The reshape merging the two trailing axes `(nh, q)` into one channel
axis (source lines 179–182), row-major. -/
def reshape_merge_last (q : ℕ) (t : T5) : T4 :=
  fun b i j c => t b i j (c / q) (c % q)

/-- `combine_heads_2d` (source lines 172–182). -/
def combine_heads_2d (q : ℕ) (t : T5) : T4 :=
  reshape_merge_last q (permute_02314 t)

/-! ### the forward pass (source lines 58–100) -/

/-- First part of `tf.split(inputs, [depth_k, depth_k, depth_v], axis=-1)`. -/
def split_q (inp : T4) : T4 := fun b i j c => inp b i j c

/-- Second part of the channel split: channels `[depth_k, 2*depth_k)`. -/
def split_k (dk : ℕ) (inp : T4) : T4 := fun b i j c => inp b i j (dk + c)

/-- Third part of the channel split: channels `[2*depth_k, 2*depth_k+depth_v)`. -/
def split_v (dk : ℕ) (inp : T4) : T4 := fun b i j c => inp b i j (dk + dk + c)

/-- The query scaling factor `(depth_k / num_heads) ** -0.5` (source lines
69–72); Python `/` is true division, `**` the real power. -/
noncomputable def q_scale (dk nh : ℕ) : ℝ :=
  ((dk : ℝ) / (nh : ℝ)) ^ (-(1 / 2) : ℝ)

/-- `q *= c`, elementwise scaling of a rank-5 tensor (source line 72). -/
def scale_tensor (c : ℝ) (t : T5) : T5 :=
  fun b h i j d => t b h i j d * c

/-- The reshape `(B,nh,H,W,d) → (B,nh,H*W,d)` flattening the two spatial
axes (source lines 75–77), row-major: position `p` decodes as
`(p / W, p % W)`. -/
def flatten_spatial (W : ℕ) (t : T5) : T4 :=
  fun b h p d => t b h (p / W) (p % W) d

/-- `tf.matmul(a, b, transpose_b=True)` on rank-4 tensors with contracted
dimension `inner` (source line 80). -/
noncomputable def matmul_nt (inner : ℕ) (a bm : T4) : T4 :=
  fun b h p p' => ∑ d ∈ Finset.range inner, a b h p d * bm b h p' d

/-- The content logits of the forward pass (source lines 63–80): split off
`q` and `k`, split heads, scale the query *before* flattening, flatten the
spatial axes, and contract. -/
noncomputable def content_logits (dk nh W : ℕ) (inp : T4) : T4 :=
  matmul_nt (dk / nh)
    (flatten_spatial W (scale_tensor (q_scale dk nh) (split_heads_2d (dk / nh) (split_q inp))))
    (flatten_spatial W (split_heads_2d (dk / nh) (split_k dk inp)))

/-! ### relative logits (source lines 130–157) -/

/-- `tf.einsum('bhxyd,md->bhxym', q, rel_k)` (source line 149). -/
noncomputable def einsum_qr (dkh : ℕ) (q : T5) (relK : ℕ → ℕ → ℝ) : T5 :=
  fun b h x y m => ∑ d ∈ Finset.range dkh, q b h x y d * relK m d

/-- The reshape `[-1, nh*X, Y, 2Y-1]` collapsing head and row axes (source
line 150), row-major: index `r` decodes as `(r / X, r % X)`. -/
def collapse_heads (X : ℕ) (t : T5) : T4 :=
  fun b r y m => t b (r / X) (r % X) y m

/-- The reshape `[-1, nh, X, Y, Y]` re-expanding the head axis (source
line 152). -/
def expand_heads (X : ℕ) (t : T4) : T5 :=
  fun b h x y j => t b (h * X + x) y j

/-- `K.expand_dims(x, axis=3)` followed by `K.tile(x, [1,1,1,X,1,1])`
(source lines 153–154): the new axis is broadcast, so the entry does not
depend on its index. -/
def tile_axis3 (t : T5) : T6 :=
  fun b h x _t y j => t b h x y j

/-- `K.permute_dimensions` with `transpose_mask = [0, 1, 2, 4, 3, 5]`
(width case, source line 139): output index `(a0..a5)` reads input index
`(a0, a1, a2, a4, a3, a5)`. -/
def permute_012435 (t : T6) : T6 :=
  fun a0 a1 a2 a3 a4 a5 => t a0 a1 a2 a4 a3 a5

/-- `K.permute_dimensions` with `transpose_mask = [0, 1, 4, 2, 5, 3]`
(height case, source line 144): output index `(a0..a5)` reads input index
`(a0, a1, a3, a5, a2, a4)`. -/
def permute_014253 (t : T6) : T6 :=
  fun a0 a1 a2 a3 a4 a5 => t a0 a1 a3 a5 a2 a4

/-- The final reshape `[-1, nh, H*W, H*W]` (source line 156) flattening the
two index pairs of a rank-6 tensor whose dimensions 3 and 5 both equal `D`,
row-major. -/
def flatten_pairs (D : ℕ) (t : T6) : T4 :=
  fun b h p k => t b h (p / D) (p % D) (k / D) (k % D)

/-- `K.permute_dimensions(q, [0, 1, 3, 2, 4])` swapping the two spatial
axes of the query (source line 142). -/
def permute_01324 (t : T5) : T5 :=
  fun b h x y d => t b h y x d

/-- `relative_logits_1d` (source lines 148–157), value level, on a query of
shape `(B, nh, X, Y, dkh)`; `perm` is the transpose mask, `flatD` the size
of dimensions 3 and 5 after that permutation (width `Y` for the width mask,
height `X` for the height mask — both equal the original width at the call
sites in `relative_logits`). -/
noncomputable def relative_logits_1d (dkh X Y flatD : ℕ) (perm : T6 → T6)
    (q : T5) (relK : ℕ → ℕ → ℝ) : T4 :=
  flatten_pairs flatD
    (perm (tile_axis3 (expand_heads X (rel_to_abs Y (collapse_heads X (einsum_qr dkh q relK))))))

/-- `relative_logits` (source lines 130–146) on a query of shape
`(B, nh, H, W, dkh)`: returns `(height_logits, width_logits)`. -/
noncomputable def relative_logits_v (dkh H W : ℕ) (q : T5)
    (relH relW : ℕ → ℕ → ℝ) : T4 × T4 :=
  (relative_logits_1d dkh W H W permute_014253 (permute_01324 q) relH,
   relative_logits_1d dkh H W W permute_012435 q relW)

/-- The logits fed to the softmax (source lines 80–85): the content logits,
plus — exactly when `relative` is set — the height and width relative
logits computed on the scaled, head-split query. -/
noncomputable def logits_of (dk nh H W : ℕ) (relative : Bool)
    (relH relW : ℕ → ℕ → ℝ) (inp : T4) : T4 :=
  if relative then
    let q := scale_tensor (q_scale dk nh) (split_heads_2d (dk / nh) (split_q inp))
    let hw := relative_logits_v (dk / nh) H W q relH relW
    fun b h p p' => content_logits dk nh W inp b h p p' + hw.1 b h p p' + hw.2 b h p p'
  else content_logits dk nh W inp

/-- `K.softmax(logits, axis=-1)` on a rank-4 tensor whose last dimension is
`n` (source line 87): mathematically `exp xᵢ / ∑ⱼ exp xⱼ` over each row. -/
noncomputable def softmax_last (n : ℕ) (t : T4) : T4 :=
  fun b h p j => Real.exp (t b h p j) / ∑ q ∈ Finset.range n, Real.exp (t b h p q)

/-- `AttentionAugmentation.call` (source lines 58–100), channels-last,
value level: softmax the logits, aggregate the flattened values, reshape
back to `(B, nh, H, W, dv/nh)` and combine heads. -/
noncomputable def call_v (dk dv nh : ℕ) (relative : Bool)
    (relH relW : ℕ → ℕ → ℝ) (H W : ℕ) (inp : T4) : T4 :=
  let flat_v := flatten_spatial W (split_heads_2d (dv / nh) (split_v dk inp))
  let weights := softmax_last (H * W) (logits_of dk nh H W relative relH relW inp)
  let attn := fun b h p d => ∑ p' ∈ Finset.range (H * W), weights b h p p' * flat_v b h p' d
  let attn5 := fun b h i j d => attn b h (i * W + j) d
  combine_heads_2d (dv / nh) attn5

/-- The content-only attention forward pass: the same pipeline with the
relative-position bias omitted entirely (the `relative = false` behaviour
the spec demands). -/
noncomputable def content_only_call (dk dv nh H W : ℕ) (inp : T4) : T4 :=
  let flat_v := flatten_spatial W (split_heads_2d (dv / nh) (split_v dk inp))
  let weights := softmax_last (H * W) (content_logits dk nh W inp)
  let attn := fun b h p d => ∑ p' ∈ Finset.range (H * W), weights b h p p' * flat_v b h p' d
  let attn5 := fun b h i j d => attn b h (i * W + j) d
  combine_heads_2d (dv / nh) attn5

/-! ## Constructor model -/

/-- A Python number as passed to `__init__`: either an `int` or a `float`
(the constructor only inspects the tag). -/
inductive PyNum where
  | int : ℤ → PyNum
  | float : ℚ → PyNum
  deriving DecidableEq

/-- The state stored by a successful `__init__`. -/
structure AAInitConfig where
  depth_k : ℤ
  depth_v : ℤ
  num_heads : ℤ
  relative : Bool
  strides : ℤ × ℤ
  deriving DecidableEq

/-- `AttentionAugmentation.__init__` (source lines 19–34).  The only
validation performed is the `type(...) != int` check on `depth_k` and
`depth_v`; the data-format axis read there is construction-time ambient
configuration and does not affect validation. -/
def attn_init (depth_k depth_v : PyNum) (num_heads : ℤ) (relative : Bool)
    (strides : ℤ × ℤ) : Except String AAInitConfig :=
  match depth_k with
  | .float _ => .error "Depth k must be an integer number of filters !"
  | .int dk =>
    match depth_v with
    | .float _ => .error "Depth v must be an integer number of filters !"
    | .int dv => .ok ⟨dk, dv, num_heads, relative, (strides.1, strides.2)⟩

/-! ## Theorems: value level -/

/-- Key index computation of the skew trick: entry `(i, j)` of the sliced
result reads entry `(i, j - i + (L-1))` of the original offset tensor,
and never a padding zero.  Shared by the `rel_to_abs` claims. -/
lemma rel_to_abs_entry (L : ℕ) (x : T4) (b n i j : ℕ) (hi : i < L) (hj : j < L) :
    rel_to_abs L x b n i j = x b n i (j + (L - 1) - i) := by
  obtain ⟨Z, rfl⟩ : ∃ z, L = z + 1 := ⟨L - 1, by omega⟩
  have hi' : i ≤ Z := by omega
  have hj' : j ≤ Z := by omega
  simp only [rel_to_abs, unflatten_last, concat_zero_flat, flatten_last2, concat_zero_col,
    Nat.add_sub_cancel]
  obtain ⟨m, hm⟩ : ∃ m, j + Z = i + m := ⟨j + Z - i, by omega⟩
  have hkey : i * (2 * (Z + 1) - 1) + (j + Z) = 2 * (Z + 1) * i + m := by
    have e1 : 2 * (Z + 1) - 1 = 2 * Z + 1 := by omega
    rw [e1, hm]; ring
  have hmlt : m < 2 * (Z + 1) := by omega
  have hcond : 2 * (Z + 1) * i + m < (Z + 1) * 2 * (Z + 1) := by
    have hc2 : (Z + 1) * 2 * (Z + 1) = 2 * (Z + 1) * Z + 2 * (Z + 1) := by ring
    rw [hc2]
    exact Nat.add_lt_add_of_le_of_lt (Nat.mul_le_mul_left _ hi') hmlt
  rw [hkey, Nat.mul_add_div (by omega), Nat.div_eq_of_lt hmlt, Nat.mul_add_mod,
    Nat.mod_eq_of_lt hmlt, if_pos hcond, if_pos (show m < 2 * (Z + 1) - 1 by omega)]
  congr 1
  omega

/-- Claim C1: for an input of shape `(B, N, L, 2L-1)`, the `rel_to_abs`
transform returns the `(B, N, L, L)` tensor whose entry `[..., i, j]`
equals the input entry `[..., i, j - i + (L-1)]` for all `i, j < L`; in
particular no padding zero ever reaches the output. -/
theorem rel_to_abs_index_map (L : ℕ) (x : T4) (b n i j : ℕ)
    (hi : i < L) (hj : j < L) :
    rel_to_abs L x b n i j = x b n i (j + (L - 1) - i) :=
  rel_to_abs_entry L x b n i j hi hj

/-- Concrete offset tensor used to witness the `rel_to_abs` index map. -/
def xC1 : T4 := fun _ _ i m => ((10 * i + m : ℕ) : ℝ)

theorem rel_to_abs_index_map_witness :
    rel_to_abs 3 xC1 0 0 0 2 = xC1 0 0 0 4 :=
  rel_to_abs_index_map 3 xC1 0 0 0 2 (by norm_num) (by norm_num)

/-- Claim C9: for `L = 1` the transform maps the single offset score to the
single position score unchanged, with no special-casing. -/
theorem rel_to_abs_singleton (x : T4) (b n : ℕ) :
    rel_to_abs 1 x b n 0 0 = x b n 0 0 := by
  simpa using rel_to_abs_entry 1 x b n 0 0 (by norm_num) (by norm_num)

/-- Claim C2: on a `(B,H,W,C)` tensor with `C` divisible by `num_heads`,
`split_heads_2d` followed by `combine_heads_2d` is the identity, and head
`h` holds exactly the contiguous channel block
`[h*(C/nh), (h+1)*(C/nh))` in order. -/
theorem split_combine_heads_roundtrip (C nh : ℕ) (_hdiv : nh ∣ C) (ip : T4) :
    combine_heads_2d (C / nh) (split_heads_2d (C / nh) ip) = ip ∧
    ∀ b h i j d, h < nh → d < C / nh →
      split_heads_2d (C / nh) ip b h i j d = ip b i j (h * (C / nh) + d) := by
  refine ⟨?_, fun b h i j d _ _ => rfl⟩
  funext b i j c
  show ip b i j (c / (C / nh) * (C / nh) + c % (C / nh)) = ip b i j c
  rw [Nat.mul_comm (c / (C / nh)) (C / nh), Nat.div_add_mod]

/-- Concrete feature map used to witness the head split/combine claims. -/
def ipC2 : T4 := fun b i j c => ((b + 2 * i + 3 * j + 5 * c : ℕ) : ℝ)

theorem split_combine_heads_roundtrip_witness :
    split_heads_2d 2 ipC2 0 1 0 0 1 = ipC2 0 0 0 3 :=
  (split_combine_heads_roundtrip 4 2 (by norm_num) ipC2).2 0 1 0 0 1
    (by norm_num) (by norm_num)

/-- Claim C7: the content logits are built by scaling the query elementwise
by `(depth_k/num_heads) ** -0.5` *before* the spatial flattening and before
any dot product, then contracting the flattened query against the
transposed flattened key; the entry `(p, p')` equals the scale factor times
the plain query·key dot product of the per-head channel slices. -/
theorem content_logits_scaled_matmul (dk nh W : ℕ) (inp : T4) (b h p p' : ℕ) :
    content_logits dk nh W inp
      = matmul_nt (dk / nh)
          (flatten_spatial W
            (scale_tensor (q_scale dk nh) (split_heads_2d (dk / nh) (split_q inp))))
          (flatten_spatial W (split_heads_2d (dk / nh) (split_k dk inp)))
    ∧ content_logits dk nh W inp b h p p'
      = q_scale dk nh *
          ∑ d ∈ Finset.range (dk / nh),
            inp b (p / W) (p % W) (h * (dk / nh) + d) *
            inp b (p' / W) (p' % W) (dk + (h * (dk / nh) + d)) := by
  refine ⟨rfl, ?_⟩
  simp only [content_logits, matmul_nt, flatten_spatial, scale_tensor, split_heads_2d,
    permute_03124, reshape_split_last, split_q, split_k]
  rw [Finset.mul_sum]
  refine Finset.sum_congr rfl fun d _ => ?_
  ring

/-- Claim C8: each softmax row is non-negative and sums exactly to `1`
(hence certainly within the `1e-5` tolerance), and subtracting any
constant — in particular the row maximum used for numerical stability —
from every logit leaves the weights unchanged, so arbitrarily large
magnitude shifts cannot alter the distribution. -/
theorem softmax_rows_convex_stable (n : ℕ) (hn : 0 < n) (t : T4) (b h p : ℕ) :
    (∀ j, 0 ≤ softmax_last n t b h p j) ∧
    (∑ j ∈ Finset.range n, softmax_last n t b h p j = 1) ∧
    |(∑ j ∈ Finset.range n, softmax_last n t b h p j) - 1| ≤ 1 / 100000 ∧
    ∀ c : ℝ, ∀ j, softmax_last n (fun b' h' p' j' => t b' h' p' j' - c) b h p j
        = softmax_last n t b h p j := by
  have hpos : 0 < ∑ q ∈ Finset.range n, Real.exp (t b h p q) :=
    Finset.sum_pos (fun q _ => Real.exp_pos _) (Finset.nonempty_range_iff.mpr hn.ne')
  have hsum : ∑ j ∈ Finset.range n, softmax_last n t b h p j = 1 := by
    simp only [softmax_last]
    rw [← Finset.sum_div, div_self hpos.ne']
  refine ⟨fun j => div_nonneg (Real.exp_pos _).le hpos.le, hsum, ?_, ?_⟩
  · rw [hsum]; norm_num
  · intro c j
    have he : Real.exp c ≠ 0 := (Real.exp_pos c).ne'
    simp only [softmax_last, Real.exp_sub]
    rw [← Finset.sum_div]
    rw [div_div, mul_comm, div_mul_cancel₀ _ he]

/-- Concrete logits tensor used to witness the softmax claims. -/
def tC8 : T4 := fun _ _ _ j => (j : ℝ)

theorem softmax_rows_convex_stable_witness :
    ∑ j ∈ Finset.range 3, softmax_last 3 tC8 0 0 0 j = 1 :=
  (softmax_rows_convex_stable 3 (by norm_num) tC8 0 0 0).2.1

/-! ## Theorems: shape level -/

lemma reshapeTo_of_eq {s tgt : Shape} (h : s.prod = tgt.prod) : reshapeTo s tgt = some tgt := by
  simp [reshapeTo, h]

lemma reshapeTo_of_ne {s tgt : Shape} (h : s.prod ≠ tgt.prod) : reshapeTo s tgt = none := by
  simp [reshapeTo, h]

lemma reshapeInfer_of_eq {s tgt : Shape} (B : ℕ) (h : s.prod = B * tgt.prod)
    (ht : 0 < tgt.prod) : reshapeInfer s tgt = some (B :: tgt) := by
  unfold reshapeInfer
  rw [if_pos (h ▸ dvd_mul_left tgt.prod B), h, Nat.mul_div_cancel B ht]

lemma reshapeInfer_of_not_dvd {s tgt : Shape} (h : ¬ tgt.prod ∣ s.prod) :
    reshapeInfer s tgt = none := by
  simp [reshapeInfer, h]

lemma broadcastShape_self (l : Shape) : broadcastShape l l = some l := by
  induction l with
  | nil => rfl
  | cons a as' ih => simp [broadcastShape, broadcastDim, ih]

lemma split_heads_2d_shape_ok (nh B H W C : ℕ) (h : nh ∣ C) :
    split_heads_2d_shape nh [B, H, W, C] = some [B, nh, H, W, C / nh] := by
  have hp : ([B, H, W, C] : Shape).prod = ([B, H, W, nh, C / nh] : Shape).prod := by
    simp only [List.prod_cons, List.prod_nil, Nat.mul_one]
    rw [Nat.mul_div_cancel' h]
  simp only [split_heads_2d_shape]
  rw [reshapeTo_of_eq hp]
  rfl

lemma rel_to_abs_shape_ok (B Nh Y : ℕ) (hY : 0 < Y) :
    rel_to_abs_shape [B, Nh, Y, 2 * Y - 1] = some [B, Nh, Y, Y] := by
  obtain ⟨Z, rfl⟩ : ∃ z, Y = z + 1 := ⟨Y - 1, by omega⟩
  have e1 : 2 * (Z + 1) - 1 + 1 = 2 * (Z + 1) := by omega
  have e2 : 2 * (Z + 1) - 1 = 2 * Z + 1 := by omega
  have hp1 : ([B, Nh, Z + 1, 2 * (Z + 1) - 1 + 1] : Shape).prod
      = ([B, Nh, (Z + 1) * 2 * (Z + 1)] : Shape).prod := by
    simp only [List.prod_cons, List.prod_nil, e1]
    ring
  have hp2 : ([B, Nh, (Z + 1) * 2 * (Z + 1) + (Z + 1 - 1)] : Shape).prod
      = ([B, Nh, Z + 1 + 1, 2 * (Z + 1) - 1] : Shape).prod := by
    simp only [List.prod_cons, List.prod_nil, e2, Nat.add_sub_cancel]
    ring
  simp only [rel_to_abs_shape]
  rw [reshapeTo_of_eq hp1, reshapeTo_of_eq hp2]
  simp only [Option.some_bind, Option.map_some']
  have e3 : min (Z + 1) (Z + 1 + 1) = Z + 1 := by omega
  have e4 : 2 * (Z + 1) - 1 - (Z + 1 - 1) = Z + 1 := by omega
  rw [e3, e4]

lemma rel1d_tail_shape_ok (nh X Y B1 : ℕ) (hnh : 0 < nh) (hX : 0 < X) (hY : 0 < Y)
    (mask : List ℕ)
    (hmask : mask = [0, 1, 2, 4, 3, 5] ∨ mask = [0, 1, 4, 2, 5, 3]) :
    rel1d_tail_shape nh X Y mask [B1, nh * X, Y, 2 * Y - 1]
      = some [B1, nh, X * Y, X * Y] := by
  have hpos4 : (0 : ℕ) < ([nh, X, Y, Y] : Shape).prod := by
    simp only [List.prod_cons, List.prod_nil, Nat.mul_one]
    positivity
  have hp4 : ([B1, nh * X, Y, Y] : Shape).prod = B1 * ([nh, X, Y, Y] : Shape).prod := by
    simp only [List.prod_cons, List.prod_nil]
    ring
  have hpos6 : (0 : ℕ) < ([nh, X * Y, X * Y] : Shape).prod := by
    simp only [List.prod_cons, List.prod_nil, Nat.mul_one]
    positivity
  simp only [rel1d_tail_shape]
  rw [rel_to_abs_shape_ok _ _ _ hY]
  simp only [Option.some_bind]
  rw [reshapeInfer_of_eq B1 hp4 hpos4]
  simp only [Option.some_bind]
  rcases hmask with hm | hm <;> subst hm
  · have hp6 : (permuteShape [0, 1, 2, 4, 3, 5] [B1, nh, X, X, Y, Y]).prod
        = B1 * ([nh, X * Y, X * Y] : Shape).prod := by
      simp only [permuteShape, List.map_cons, List.map_nil, List.getD_cons_zero,
        List.getD_cons_succ, List.prod_cons, List.prod_nil]
      ring
    rw [reshapeInfer_of_eq B1 hp6 hpos6]
  · have hp6 : (permuteShape [0, 1, 4, 2, 5, 3] [B1, nh, X, X, Y, Y]).prod
        = B1 * ([nh, X * Y, X * Y] : Shape).prod := by
      simp only [permuteShape, List.map_cons, List.map_nil, List.getD_cons_zero,
        List.getD_cons_succ, List.prod_cons, List.prod_nil]
      ring
    rw [reshapeInfer_of_eq B1 hp6 hpos6]

lemma relative_logits_1d_shape_ok (nh R cols X Y B : ℕ) (hnh : 0 < nh) (hX : 0 < X)
    (hY : 0 < Y) (hR : R = 2 * Y - 1) (mask : List ℕ)
    (hmask : mask = [0, 1, 2, 4, 3, 5] ∨ mask = [0, 1, 4, 2, 5, 3]) :
    relative_logits_1d_shape nh R cols X Y mask [B, nh, X, Y, cols]
      = some [B, nh, X * Y, X * Y] := by
  subst hR
  have hpos2 : (0 : ℕ) < ([nh * X, Y, 2 * Y - 1] : Shape).prod := by
    have h1 : 0 < 2 * Y - 1 := by omega
    simp only [List.prod_cons, List.prod_nil, Nat.mul_one]
    positivity
  have hp2 : ([B, nh, X, Y, 2 * Y - 1] : Shape).prod
      = B * ([nh * X, Y, 2 * Y - 1] : Shape).prod := by
    simp only [List.prod_cons, List.prod_nil]
    ring
  simp only [relative_logits_1d_shape]
  rw [if_pos trivial, reshapeInfer_of_eq B hp2 hpos2]
  simp only [Option.some_bind]
  exact rel1d_tail_shape_ok nh X Y B hnh hX hY mask hmask

lemma relative_logits_shape_ok (nh rowsH rowsW cols X Y B : ℕ) (hnh : 0 < nh)
    (hX : 0 < X) (hY : 0 < Y) (hrH : rowsH = 2 * X - 1) (hrW : rowsW = 2 * Y - 1) :
    relative_logits_shape nh rowsH rowsW cols [B, nh, X, Y, cols]
      = some ([B, nh, X * Y, X * Y], [B, nh, X * Y, X * Y]) := by
  simp only [relative_logits_shape]
  rw [relative_logits_1d_shape_ok nh rowsW cols X Y B hnh hX hY hrW _ (Or.inl rfl)]
  have hperm : permuteShape [0, 1, 3, 2, 4] [B, nh, X, Y, cols] = [B, nh, Y, X, cols] := rfl
  rw [hperm,
    relative_logits_1d_shape_ok nh rowsH cols Y X B hnh hY hX (by rw [hrH]) _ (Or.inr rfl)]
  simp only [Option.some_bind, Option.map_some']
  rw [Nat.mul_comm Y X]

/-- Claim C6: on any valid input of shape `(B, H, W, 2*depth_k + depth_v)`
whose spatial extent matches the build-time extent, the forward pass
produces a tensor of shape `(B, H, W, depth_v)` — only the channel axis
changes — in agreement with `compute_output_shape`. -/
theorem call_output_shape (dk dv nh B H W : ℕ) (rel : Bool)
    (_hB : 0 < B) (hH : 0 < H) (hW : 0 < W) (hnh : 0 < nh)
    (hdk : nh ∣ dk) (hdv : nh ∣ dv) :
    call_shape ⟨dk, dv, nh, rel⟩ H W [B, H, W, dk + dk + dv] = some [B, H, W, dv]
    ∧ compute_output_shape ⟨dk, dv, nh, rel⟩ [B, H, W, dk + dk + dv] = [B, H, W, dv] := by
  refine ⟨?_, rfl⟩
  have hflat : ∀ q : ℕ, ([B, nh, H, W, q] : Shape).prod = ([B, nh, H * W, q] : Shape).prod := by
    intro q
    simp only [List.prod_cons, List.prod_nil]
    ring
  simp only [call_shape]
  rw [if_pos trivial]
  rw [split_heads_2d_shape_ok nh B H W dk hdk, split_heads_2d_shape_ok nh B H W dv hdv]
  simp only [Option.some_bind]
  rw [reshapeTo_of_eq (hflat (dk / nh)), reshapeTo_of_eq (hflat (dv / nh))]
  simp only [Option.some_bind]
  simp only [matmulShape, eq_self_iff_true, if_true, broadcastShape_self, Option.map_some',
    List.cons_append, List.nil_append]
  simp only [Option.some_bind]
  cases rel with
  | false =>
      simp only [Bool.false_eq_true, if_false, Option.some_bind]
      simp only [matmulShape, Bool.false_eq_true, if_false, eq_self_iff_true, if_true,
        broadcastShape_self, Option.map_some', List.cons_append, List.nil_append,
        Option.some_bind]
      rw [reshapeTo_of_eq (hflat (dv / nh)).symm]
      simp only [Option.some_bind, combine_heads_2d_shape]
      rw [Nat.mul_div_cancel' hdv]
  | true =>
      rw [relative_logits_shape_ok nh (2 * H - 1) (2 * W - 1) (dk / nh) H W B hnh hH hW
        rfl rfl]
      simp only [Option.some_bind, broadcastShape_self]
      simp only [matmulShape, Bool.false_eq_true, if_false, eq_self_iff_true, if_true,
        broadcastShape_self, Option.map_some', List.cons_append, List.nil_append,
        Option.some_bind]
      rw [reshapeTo_of_eq (hflat (dv / nh)).symm]
      simp only [Option.some_bind, combine_heads_2d_shape]
      rw [Nat.mul_div_cancel' hdv]

/-- Claim C3 (counterexample): constructing the layer with `depth_k = 5`,
`num_heads = 4` does not raise anything — `__init__` only checks that
`depth_k` and `depth_v` are Python `int`s and performs no divisibility
validation, so construction succeeds. -/
theorem init_no_divisibility_check :
    attn_init (PyNum.int 5) (PyNum.int 4) 4 true (1, 1)
      = Except.ok ⟨5, 4, 4, true, (1, 1)⟩ := rfl

/-- Claim C3 (amended): construction with `depth_k = 5, num_heads = 4`
succeeds — only a non-`int` depth argument raises at construction time —
and the divisibility violation surfaces later, as a shape error in the
head-splitting reshape of the first forward call. -/
theorem init_nondivisible_accepted_then_shape_error (Hb Wb B H W : ℕ)
    (hB : 0 < B) (hH : 0 < H) (hW : 0 < W) :
    attn_init (PyNum.int 5) (PyNum.int 4) 4 true (1, 1)
      = Except.ok ⟨5, 4, 4, true, (1, 1)⟩
    ∧ call_shape ⟨5, 4, 4, true⟩ Hb Wb [B, H, W, 14] = none := by
  refine ⟨rfl, ?_⟩
  have hsplit : split_heads_2d_shape 4 [B, H, W, 5] = none := by
    have hne : ([B, H, W, 5] : Shape).prod ≠ ([B, H, W, 4, 5 / 4] : Shape).prod := by
      simp only [List.prod_cons, List.prod_nil, Nat.mul_one]
      norm_num
      omega
    simp only [split_heads_2d_shape]
    rw [reshapeTo_of_ne hne]
    rfl
  simp only [call_shape]
  rw [if_pos (by norm_num)]
  rw [hsplit]
  rfl

theorem init_nondivisible_accepted_then_shape_error_witness :
    call_shape ⟨5, 4, 4, true⟩ 8 8 [1, 1, 1, 14] = none :=
  (init_nondivisible_accepted_then_shape_error 8 8 1 1 1 (by norm_num) (by norm_num)
    (by norm_num)).2

lemma broadcastDim_none {a b : ℕ} (h1 : a ≠ b) (h2 : a ≠ 1) (h3 : b ≠ 1) :
    broadcastDim a b = none := by
  simp [broadcastDim, h1, h2, h3]

lemma relative_logits_1d_shape_15 (nh cols t : ℕ) (hnh : 0 < nh) (mask : List ℕ)
    (hmask : mask = [0, 1, 2, 4, 3, 5] ∨ mask = [0, 1, 4, 2, 5, 3]) :
    relative_logits_1d_shape nh 15 cols 16 16 mask [31 * t, nh, 16, 16, cols]
      = some [15 * t, nh, 16 * 16, 16 * 16] := by
  have hpos : (0 : ℕ) < ([nh * 16, 16, 2 * 16 - 1] : Shape).prod := by
    simp only [List.prod_cons, List.prod_nil, Nat.mul_one]
    norm_num
    positivity
  have hp : ([31 * t, nh, 16, 16, 15] : Shape).prod
      = (15 * t) * ([nh * 16, 16, 2 * 16 - 1] : Shape).prod := by
    simp only [List.prod_cons, List.prod_nil, Nat.mul_one]
    norm_num
    ring
  simp only [relative_logits_1d_shape]
  rw [if_pos trivial, reshapeInfer_of_eq (15 * t) hp hpos]
  simp only [Option.some_bind]
  exact rel1d_tail_shape_ok nh 16 16 (15 * t) hnh (by norm_num) (by norm_num) mask hmask

lemma relative_logits_1d_shape_15_none (nh cols B : ℕ) (hnh : 0 < nh)
    (hnd : ¬ (31 : ℕ) ∣ B) (mask : List ℕ) :
    relative_logits_1d_shape nh 15 cols 16 16 mask [B, nh, 16, 16, cols] = none := by
  have hndvd : ¬ ([nh * 16, 16, 2 * 16 - 1] : Shape).prod ∣ ([B, nh, 16, 16, 15] : Shape).prod := by
    have e1 : ([nh * 16, 16, 2 * 16 - 1] : Shape).prod = nh * 7936 := by
      simp only [List.prod_cons, List.prod_nil, Nat.mul_one]
      norm_num
      ring
    have e2 : ([B, nh, 16, 16, 15] : Shape).prod = nh * (3840 * B) := by
      simp only [List.prod_cons, List.prod_nil, Nat.mul_one]
      ring
    rw [e1, e2]
    intro hdvd
    apply hnd
    have h1 : (7936 : ℕ) ∣ 3840 * B := (Nat.mul_dvd_mul_iff_left hnh).mp hdvd
    have h2 : (256 * 31 : ℕ) ∣ 256 * (15 * B) := by
      have e3 : (256 * 31 : ℕ) = 7936 := by norm_num
      have e4 : (256 * (15 * B) : ℕ) = 3840 * B := by ring
      rw [e3, e4]
      exact h1
    have h3 : (31 : ℕ) ∣ 15 * B := (Nat.mul_dvd_mul_iff_left (by norm_num : (0:ℕ) < 256)).mp h2
    exact (Nat.Coprime.dvd_of_dvd_mul_left (by norm_num) h3)
  simp only [relative_logits_1d_shape]
  rw [if_pos trivial, reshapeInfer_of_not_dvd hndvd]
  rfl

lemma relative_logits_shape_mismatch (nh cols B : ℕ) (hB : 0 < B) (hnh : 0 < nh) :
    (relative_logits_shape nh 15 15 cols [B, nh, 16, 16, cols] = none ∧ ¬ (31 : ℕ) ∣ B)
    ∨ (∃ t, 0 < t ∧ B = 31 * t ∧
        relative_logits_shape nh 15 15 cols [B, nh, 16, 16, cols]
          = some ([15 * t, nh, 16 * 16, 16 * 16], [15 * t, nh, 16 * 16, 16 * 16])) := by
  by_cases hd : (31 : ℕ) ∣ B
  · right
    obtain ⟨t, rfl⟩ := hd
    refine ⟨t, by omega, rfl, ?_⟩
    simp only [relative_logits_shape]
    rw [relative_logits_1d_shape_15 nh cols t hnh _ (Or.inl rfl)]
    have hperm : permuteShape [0, 1, 3, 2, 4] [31 * t, nh, 16, 16, cols]
        = [31 * t, nh, 16, 16, cols] := rfl
    rw [hperm, relative_logits_1d_shape_15 nh cols t hnh _ (Or.inr rfl)]
    rfl
  · left
    refine ⟨?_, hd⟩
    simp only [relative_logits_shape]
    rw [relative_logits_1d_shape_15_none nh cols B hnh hd]
    rfl

/-- Claim C4: with the relative-embedding tables sized at a first spatial
extent of `8 × 8` (tables of `2*8-1 = 15` rows), a forward call at extent
`16 × 16` fails with a shape error for every batch size and every valid
head configuration: either the collapse reshape inside
`relative_logits_1d` fails outright, or — when `31 ∣ B` lets the inferred
reshape go through with a mangled batch dimension — the subsequent bias
addition fails to broadcast.  No wrong-shaped output is ever returned. -/
theorem resolution_mismatch_call_fails (dk dv nh B : ℕ)
    (hB : 0 < B) (hnh : 0 < nh) (hdk : nh ∣ dk) (hdv : nh ∣ dv) :
    call_shape ⟨dk, dv, nh, true⟩ 8 8 [B, 16, 16, dk + dk + dv] = none := by
  have hflat : ∀ q : ℕ,
      ([B, nh, 16, 16, q] : Shape).prod = ([B, nh, 16 * 16, q] : Shape).prod := by
    intro q
    simp only [List.prod_cons, List.prod_nil]
    ring
  simp only [call_shape]
  rw [if_pos trivial]
  rw [split_heads_2d_shape_ok nh B 16 16 dk hdk, split_heads_2d_shape_ok nh B 16 16 dv hdv]
  simp only [Option.some_bind]
  rw [reshapeTo_of_eq (hflat (dk / nh)), reshapeTo_of_eq (hflat (dv / nh))]
  simp only [Option.some_bind]
  simp only [matmulShape, Bool.false_eq_true, if_false, eq_self_iff_true, if_true,
    broadcastShape_self, Option.map_some', List.cons_append, List.nil_append,
    Option.some_bind]
  have h15 : (2 * 8 - 1 : ℕ) = 15 := by norm_num
  rw [h15]
  rcases relative_logits_shape_mismatch nh (dk / nh) B hB hnh with ⟨hnone, _⟩ | ⟨t, ht, rfl, hsome⟩
  · rw [hnone]
    rfl
  · rw [hsome]
    simp only [Option.some_bind]
    have hbc : broadcastShape [31 * t, nh, 16 * 16, 16 * 16] [15 * t, nh, 16 * 16, 16 * 16]
        = none := by
      simp only [broadcastShape]
      rw [broadcastDim_none (by omega) (by omega) (by omega)]
      rfl
    rw [hbc]
    rfl

theorem resolution_mismatch_call_fails_witness :
    call_shape ⟨4, 4, 4, true⟩ 8 8 [2, 16, 16, 12] = none :=
  resolution_mismatch_call_fails 4 4 4 2 (by norm_num) (by norm_num) (by norm_num)
    (by norm_num)

theorem call_output_shape_witness :
    call_shape ⟨4, 4, 4, true⟩ 8 8 [2, 8, 8, 12] = some [2, 8, 8, 4] :=
  (call_output_shape 4 4 4 2 8 8 true (by norm_num) (by norm_num) (by norm_num)
    (by norm_num) (by norm_num) (by norm_num)).1

/-- Claim C5: with `relative = false` the logits fed to the softmax are
exactly the content logits — the bias terms are omitted entirely, not
merely small — and the whole forward output equals the content-only
attention output. -/
theorem relative_disabled_logits_content_only (dk dv nh H W : ℕ) (relative : Bool)
    (relH relW : ℕ → ℕ → ℝ) (inp : T4) (hrel : relative = false) :
    logits_of dk nh H W relative relH relW inp = content_logits dk nh W inp ∧
    call_v dk dv nh relative relH relW H W inp = content_only_call dk dv nh H W inp := by
  subst hrel
  exact ⟨rfl, rfl⟩

/-- Concrete feature map used by several witnesses. -/
def inpEx : T4 := fun b i j c => ((b + i + 2 * j + 3 * c : ℕ) : ℝ)

/-- Concrete relative-embedding table used by several witnesses. -/
def relEx : ℕ → ℕ → ℝ := fun m d => ((m + 2 * d : ℕ) : ℝ)

theorem relative_disabled_logits_content_only_witness :
    logits_of 2 1 2 2 false relEx relEx inpEx = content_logits 2 1 2 inpEx :=
  (relative_disabled_logits_content_only 2 2 1 2 2 false relEx relEx inpEx rfl).1

/-- Claim C10: the forward pass is a pure function of the construction-time
configuration, the two relative-embedding tables and the input tensor: two
invocations on equal parameter state and equal inputs produce identical
outputs (the only state touched during `call` — the cached batch/height/
width — is recomputed from the input itself on every invocation). -/
theorem call_forward_deterministic (dk dv nh : ℕ) (relative : Bool)
    (relH relW relH' relW' : ℕ → ℕ → ℝ) (H W : ℕ) (inp inp' : T4)
    (out1 out2 : T4)
    (htabH : relH = relH') (htabW : relW = relW') (hin : inp = inp')
    (h1 : out1 = call_v dk dv nh relative relH relW H W inp)
    (h2 : out2 = call_v dk dv nh relative relH' relW' H W inp') :
    out1 = out2 := by
  subst htabH; subst htabW; subst hin; subst h1; subst h2; rfl

theorem call_forward_deterministic_witness :
    call_v 2 2 1 true relEx relEx 2 2 inpEx = call_v 2 2 1 true relEx relEx 2 2 inpEx :=
  call_forward_deterministic 2 2 1 true relEx relEx relEx relEx 2 2 inpEx inpEx
    _ _ rfl rfl rfl rfl rfl

end AttnAug
